import Mathlib

set_option maxRecDepth 4000

/-!
Shallow embedding of `src/AI_Test/SmartInput/main.py` (SmartInput), the
keyboard-driven pinyin/english input-method shim.  The global mutable state
of the Python module (`current_mode`, `input_buffer`, `raw_input_buffer`,
`current_candidates`, `ctrl_pressed`, `shift_pressed`) becomes the structure
`IMState`; the keyboard callbacks `on_press` / `on_release` become pure step
functions; the external Pinyin2Hanzi `dag` routine is an opaque parameter
that may fail (`none` models a raised exception).  Buffers are `List Char`
(Python strings of typed characters); candidate words are Lean `String`s.
-/

/-- Input mode: the Python strings "pinyin", "english", "unknown". -/
inductive Mode where
  | unknown
  | pinyin
  | english
  deriving DecidableEq, Repr

/-- The dataclass `UIState(visible, buffer, candidates)` pushed to `ui_queue`. -/
structure UIState where
  visible : Bool
  buffer : List Char
  candidates : List String
  deriving DecidableEq, Repr

/-- The global mutable state of `main.py`. -/
structure IMState where
  current_mode : Mode
  input_buffer : List Char
  raw_input_buffer : List Char
  current_candidates : List String
  ctrl_pressed : Bool
  shift_pressed : Bool
  deriving DecidableEq, Repr

/-- Initial state at process start: mode "unknown", empty buffers, no
candidates, no modifiers held. -/
def initState : IMState :=
  { current_mode := Mode.unknown
    input_buffer := []
    raw_input_buffer := []
    current_candidates := []
    ctrl_pressed := false
    shift_pressed := false }

/-- Python `str.isalpha`, restricted to the character range this program
touches: ASCII letters plus the umlaut vowel that occurs in the pinyin
final set.  (Python's `isalpha` is Unicode-wide; only these characters are
ever tested by the embedded code and claims.) -/
def pyIsAlpha (c : Char) : Bool :=
  c.isAlpha || c = 'ü' || c = 'Ü'

/-- Python `str.lower` on the same character range. -/
def pyToLower (c : Char) : Char :=
  if c = 'Ü' then 'ü' else c.toLower

/-- `valid_initials = set('bpmfdztnlgkhjqxzcs')` from
`is_pinyin_sequence_prefix` (the literal string, duplicate 'z' included). -/
def valid_initials : List Char :=
  ['b', 'p', 'm', 'f', 'd', 'z', 't', 'n', 'l', 'g', 'k', 'h', 'j', 'q', 'x', 'z', 'c', 's']

/-- `valid_finals = set('aeiouüv')` from `is_pinyin_sequence_prefix`. -/
def valid_finals : List Char :=
  ['a', 'e', 'i', 'o', 'u', 'ü', 'v']

/-- `is_pinyin_sequence_prefix(text)`: empty text is rejected; then every
character of `text.lower()` must be alphabetic; then the lower-cased first
character must lie in `valid_initials` or `valid_finals`. -/
def is_pinyin_sequence_prefix : List Char → Bool
  | [] => false
  | c :: rest =>
      if ((c :: rest).all fun x => pyIsAlpha (pyToLower x)) = false then false
      else if pyToLower c ∉ valid_initials ∧ pyToLower c ∉ valid_finals then false
      else true

/-- The external `Pinyin2Hanzi.dag.dag` path search, treated as an opaque
collaborator: it receives the chunked pinyin list and `path_num` and either
returns a list of paths (each path a list of hanzi strings, `item.path`) or
raises, modelled as `none`. -/
def DagFn : Type :=
  List (List Char) → Nat → Option (List (List String))

/-- The chunking loop of `simple_seg`: take two characters while at least
two remain, else take the single remaining character. -/
def chunk_pinyin : List Char → List (List Char)
  | [] => []
  | [c] => [[c]]
  | c1 :: c2 :: rest => [c1, c2] :: chunk_pinyin rest

/-- `simple_seg(pinyin_str, top_k, dagparams)`: empty input returns `[]`;
otherwise chunk the input, call `dag` with `path_num=top_k`, join each
returned path into one string and keep the first `top_k`; any exception
(modelled by the dag returning `none`) degrades to `[]`. -/
def simple_seg (dagFn : DagFn) (pinyin_str : List Char) (top_k : Nat) : List String :=
  if pinyin_str = [] then []
  else
    match dagFn (chunk_pinyin pinyin_str) top_k with
    | none => []
    | some result => (result.map String.join).take top_k

/-- `get_top_candidates(pinyin, top_k)`: delegates to `simple_seg` inside a
try/except that returns `[]`; since `simple_seg` already catches everything
and `list(...)` is the identity, this equals `simple_seg`. -/
def get_top_candidates (dagFn : DagFn) (pinyin : List Char) (top_k : Nat) : List String :=
  simple_seg dagFn pinyin top_k

/-- Key identities distinguished by `on_press` / `on_release`: the ctrl
family, the shift family, backspace, escape, space, enter, and character
keys carrying `key.char = c` (letters, digits, punctuation). -/
inductive Key where
  | ctrl
  | shift
  | backspace
  | esc
  | space
  | enter
  | char (c : Char)
  deriving DecidableEq, Repr

/-- Result of one `on_press` call: the new global state, the `UIState`
pushed to `ui_queue` (if any), and the committed text printed for 上屏
(if any). -/
structure StepOut where
  state : IMState
  ui : Option UIState
  committed : Option String
  deriving DecidableEq, Repr

/-- The mode rotation of the Ctrl+Shift handler: pinyin to english, english
to pinyin, unknown to pinyin. -/
def forceSwitch : Mode → Mode
  | Mode.pinyin => Mode.english
  | Mode.english => Mode.pinyin
  | Mode.unknown => Mode.pinyin

/-- Case 3 of `on_press` (letter key): append to `raw_input_buffer`,
reclassify, copy into `input_buffer`, and recompute or clear candidates. -/
def letterPress (dagFn : DagFn) (s : IMState) (c : Char) : StepOut :=
  if is_pinyin_sequence_prefix (s.raw_input_buffer ++ [c]) then
    { state := { s with current_mode := Mode.pinyin, input_buffer := s.raw_input_buffer ++ [c], raw_input_buffer := s.raw_input_buffer ++ [c], current_candidates := get_top_candidates dagFn (s.raw_input_buffer ++ [c]) 5 }
      ui := some { visible := true, buffer := s.raw_input_buffer ++ [c], candidates := get_top_candidates dagFn (s.raw_input_buffer ++ [c]) 5 }
      committed := none }
  else
    { state := { s with current_mode := Mode.english, input_buffer := s.raw_input_buffer ++ [c], raw_input_buffer := s.raw_input_buffer ++ [c], current_candidates := [] }
      ui := some { visible := false, buffer := s.raw_input_buffer ++ [c], candidates := [] }
      committed := none }

/-- Case 4 of `on_press` (Space/Enter): with a non-empty buffer, commit the
first candidate in pinyin mode (the buffer itself when no candidates),
the raw buffer otherwise, then reset everything; with an empty buffer,
do nothing. -/
def commitBuffer (s : IMState) : StepOut :=
  if s.input_buffer ≠ [] then
    { state := { s with current_mode := Mode.unknown, input_buffer := [], raw_input_buffer := [], current_candidates := [] }
      ui := some { visible := false, buffer := [], candidates := [] }
      committed := some
        (if s.current_mode = Mode.pinyin then
          match s.current_candidates with
          | [] => String.mk s.input_buffer
          | c0 :: _ => c0
        else String.mk s.input_buffer) }
  else
    { state := s, ui := none, committed := none }

/-- Case 5 of `on_press` (digit key '1'-'5'): in pinyin mode with candidates
present and `int(ch) - 1` in range, commit that candidate and reset;
otherwise fall through with no effect. -/
def digitPress (s : IMState) (c : Char) : StepOut :=
  if s.current_mode = Mode.pinyin ∧ s.current_candidates ≠ [] then
    if c.toNat - '0'.toNat - 1 < s.current_candidates.length then
      { state := { s with current_mode := Mode.unknown, input_buffer := [], raw_input_buffer := [], current_candidates := [] }
        ui := some { visible := false, buffer := [], candidates := [] }
        committed := some (s.current_candidates.getD (c.toNat - '0'.toNat - 1) "") }
    else
      { state := s, ui := none, committed := none }
  else
    { state := s, ui := none, committed := none }

/-- `on_press(key)` of `main.py`, case by case in source order: ctrl
tracking; shift (Ctrl+Shift force-switch, emitting a `UIState` visible
exactly when the new mode is pinyin); backspace (only in pinyin mode with a
non-empty buffer; otherwise it falls through every later case unhandled);
escape (sets the stop event, no state change here); letters; Space/Enter
commit; digits '1'-'5'. -/
def on_press (dagFn : DagFn) (s : IMState) (k : Key) : StepOut :=
  match k with
  | Key.ctrl =>
      { state := { s with ctrl_pressed := true }, ui := none, committed := none }
  | Key.shift =>
      if s.ctrl_pressed = false then
        { state := { s with shift_pressed := true }, ui := none, committed := none }
      else
        { state := { s with shift_pressed := true, current_mode := forceSwitch s.current_mode, input_buffer := [], raw_input_buffer := [], current_candidates := [] }
          ui := some { visible := decide (forceSwitch s.current_mode = Mode.pinyin), buffer := [], candidates := [] }
          committed := none }
  | Key.backspace =>
      if s.current_mode = Mode.pinyin ∧ s.input_buffer ≠ [] then
        if s.input_buffer.dropLast ≠ [] then
          if is_pinyin_sequence_prefix s.input_buffer.dropLast then
            { state := { s with current_mode := Mode.pinyin, input_buffer := s.input_buffer.dropLast, raw_input_buffer := s.raw_input_buffer.dropLast, current_candidates := get_top_candidates dagFn s.input_buffer.dropLast 5 }
              ui := some { visible := true, buffer := s.input_buffer.dropLast, candidates := get_top_candidates dagFn s.input_buffer.dropLast 5 }
              committed := none }
          else
            { state := { s with current_mode := Mode.english, input_buffer := s.input_buffer.dropLast, raw_input_buffer := s.raw_input_buffer.dropLast, current_candidates := [] }
              ui := some { visible := false, buffer := s.input_buffer.dropLast, candidates := [] }
              committed := none }
        else
          { state := { s with current_mode := Mode.unknown, input_buffer := s.input_buffer.dropLast, raw_input_buffer := s.raw_input_buffer.dropLast, current_candidates := [] }
            ui := some { visible := false, buffer := s.input_buffer.dropLast, candidates := [] }
            committed := none }
      else
        { state := s, ui := none, committed := none }
  | Key.esc =>
      { state := s, ui := none, committed := none }
  | Key.space => commitBuffer s
  | Key.enter => commitBuffer s
  | Key.char c =>
      if pyIsAlpha c then letterPress dagFn s c
      else if c ∈ ['1', '2', '3', '4', '5'] then digitPress s c
      else { state := s, ui := none, committed := none }

/-- `on_release(key)` of `main.py`: clears the matching modifier flag;
escape sets the stop event; everything else is ignored. -/
def on_release (s : IMState) (k : Key) : IMState :=
  match k with
  | Key.ctrl => { s with ctrl_pressed := false }
  | Key.shift => { s with shift_pressed := false }
  | _ => s

/-- A keyboard event delivered by the pynput listener. -/
inductive Event where
  | press (k : Key)
  | release (k : Key)
  deriving DecidableEq, Repr

/-- One listener callback applied to the global state. -/
def step (dagFn : DagFn) (s : IMState) (e : Event) : IMState :=
  match e with
  | Event.press k => (on_press dagFn s k).state
  | Event.release k => on_release s k

/-- States reachable from process start by a sequence of key events, for a
fixed dag collaborator. -/
inductive Reachable (dagFn : DagFn) : IMState → Prop where
  | init : Reachable dagFn initState
  | step : ∀ s e, Reachable dagFn s → Reachable dagFn (step dagFn s e)

/-- A dag collaborator that always raises (lookup failure). -/
def dagNone : DagFn := fun _ _ => none

/-- A dag collaborator that always succeeds with no paths. -/
def dagEmpty : DagFn := fun _ _ => some []

/-- A dag collaborator returning two fixed paths, for concrete witnesses. -/
def dagTwo : DagFn := fun _ _ => some [["NI"], ["HAO"]]


/-- The run-time consistency of the mutable state that every key handler
preserves: the two buffers stay equal; candidates exist only in pinyin mode
with a non-empty buffer; and a non-empty buffer is always accompanied by
the mode its classification dictates. -/
def StateInv (s : IMState) : Prop :=
  s.input_buffer = s.raw_input_buffer
  ∧ (s.current_candidates ≠ [] → s.current_mode = Mode.pinyin ∧ s.input_buffer ≠ [])
  ∧ (s.input_buffer ≠ [] →
      s.current_mode =
        (if is_pinyin_sequence_prefix s.input_buffer then Mode.pinyin else Mode.english))

/-! ### Helper lemmas about characters and the classifier -/

/-- An ASCII letter has code point in one of the two letter ranges. -/
lemma char_alpha_bounds (c : Char) (h : c.isAlpha = true) :
    (65 ≤ c.toNat ∧ c.toNat ≤ 90) ∨ (97 ≤ c.toNat ∧ c.toNat ≤ 122) := by
  rw [Char.isAlpha, Bool.or_eq_true, Char.isUpper, Char.isLower] at h
  simp only [Bool.and_eq_true, decide_eq_true_eq, UInt32.le_def, BitVec.le_def] at h
  exact h

/-- Packing a scalar value below the surrogate range round-trips. -/
lemma char_toNat_ofNat (n : Nat) (h : n < 55296) : (Char.ofNat n).toNat = n := by
  have hv : n.isValidChar := Or.inl h
  rw [Char.ofNat, dif_pos hv]
  simp [Char.ofNatAux, Char.toNat, UInt32.toNat]

/-- A character with code point in a letter range is alphabetic. -/
lemma isAlpha_of_toNat_bounds (c : Char)
    (h : (65 ≤ c.toNat ∧ c.toNat ≤ 90) ∨ (97 ≤ c.toNat ∧ c.toNat ≤ 122)) :
    c.isAlpha = true := by
  rw [Char.isAlpha, Char.isUpper, Char.isLower, Bool.or_eq_true]
  simp only [Bool.and_eq_true, decide_eq_true_eq, UInt32.le_def, BitVec.le_def]
  exact h

/-- Lower-casing an ASCII letter yields an ASCII letter. -/
lemma isAlpha_toLower (c : Char) (h : c.isAlpha = true) : (Char.toLower c).isAlpha = true := by
  have hb := char_alpha_bounds c h
  rw [Char.toLower]
  by_cases hc : c.toNat ≥ 65 ∧ c.toNat ≤ 90
  · rw [if_pos hc]
    have h2 : (Char.ofNat (c.toNat + 32)).toNat = c.toNat + 32 := char_toNat_ofNat _ (by omega)
    exact isAlpha_of_toNat_bounds _ (by omega)
  · rw [if_neg hc]
    exact h

/-- Python-lowering preserves Python-alphabeticity. -/
lemma pyIsAlpha_pyToLower (c : Char) (h : pyIsAlpha c = true) : pyIsAlpha (pyToLower c) = true := by
  rw [pyIsAlpha, Bool.or_eq_true, Bool.or_eq_true] at h
  rcases h with (h | h) | h
  · have hne : c ≠ 'Ü' := by
      rintro rfl
      exact absurd h (by decide)
    rw [pyToLower, if_neg hne, pyIsAlpha, isAlpha_toLower c h]
    rfl
  · have he : c = 'ü' := by simpa using h
    subst he
    decide
  · have he : c = 'Ü' := by simpa using h
    subst he
    decide

/-- Unfolded characterization of the classifier on a non-empty text: all
lowered characters alphabetic, and the lowered first character in one of
the two fixed sets. -/
lemma classify_cons_iff (c : Char) (rest : List Char) :
    is_pinyin_sequence_prefix (c :: rest) = true ↔
      ((∀ x ∈ c :: rest, pyIsAlpha (pyToLower x) = true) ∧
       (pyToLower c ∈ valid_initials ∨ pyToLower c ∈ valid_finals)) := by
  rw [ is_pinyin_sequence_prefix]
  by_cases ha : ((c :: rest).all fun x => pyIsAlpha (pyToLower x)) = false
  · rw [if_pos ha]
    constructor
    · intro h
      cases h
    · rintro ⟨h1, _⟩
      have h2 := List.all_eq_true.mpr h1
      rw [ha] at h2
      cases h2
  · rw [if_neg ha]
    have ha2 : ∀ x ∈ c :: rest, pyIsAlpha (pyToLower x) = true := by
      rw [Bool.not_eq_false, List.all_eq_true] at ha
      exact ha
    by_cases hm : pyToLower c ∉ valid_initials ∧ pyToLower c ∉ valid_finals
    · rw [if_pos hm]
      constructor
      · intro h
        cases h
      · rintro ⟨_, h2⟩
        tauto
    · rw [if_neg hm]
      constructor
      · intro _
        constructor
        · exact ha2
        · tauto
      · intro _
        rfl

/-- Appending one more Python-alphabetic character keeps a text classified
as pinyin (the inspected first character does not move). -/
lemma classify_append (l : List Char) (c : Char)
    (h : is_pinyin_sequence_prefix l = true)
    (hc : pyIsAlpha (pyToLower c) = true) :
    is_pinyin_sequence_prefix (l ++ [c]) = true := by
  match l with
  | [] => simp [ is_pinyin_sequence_prefix] at h
  | a :: rest =>
      rw [classify_cons_iff] at h
      rw [List.cons_append, classify_cons_iff]
      obtain ⟨h1, h2⟩ := h
      refine ⟨?_, h2⟩
      intro x hx
      rcases List.mem_cons.mp hx with rfl | hx2
      · exact h1 _ (List.mem_cons_self _ _)
      · rcases List.mem_append.mp hx2 with hx3 | hx3
        · exact h1 _ (List.mem_cons_of_mem _ hx3)
        · rw [List.mem_singleton.mp hx3]
          exact hc

/-- Removing the last character keeps a pinyin-classified text pinyin, as
long as some character remains. -/
lemma classify_dropLast (l : List Char)
    (h : is_pinyin_sequence_prefix l = true) (h2 : l.dropLast ≠ []) :
    is_pinyin_sequence_prefix l.dropLast = true := by
  match l with
  | [] => simp at h2
  | [a] => simp at h2
  | a :: b :: rest =>
      rw [classify_cons_iff] at h
      rw [List.dropLast_cons₂, classify_cons_iff]
      obtain ⟨h1, hfirst⟩ := h
      refine ⟨?_, hfirst⟩
      intro x hx
      apply h1
      rcases List.mem_cons.mp hx with rfl | hx2
      · exact List.mem_cons_self _ _
      · exact List.mem_cons_of_mem _ ((List.dropLast_sublist (b :: rest)).subset hx2)

example : is_pinyin_sequence_prefix ['n', 'i'] = true := by decide
example : is_pinyin_sequence_prefix ['w', 'a'] = false := by decide
example : chunk_pinyin ['n', 'i', 'h', 'a', 'o'] = [['n', 'i'], ['h', 'a'], ['o']] := by decide
example : simple_seg dagTwo ['n', 'i'] 5 = ["NI", "HAO"] := by decide
example : (on_press dagNone initState (Key.char 'n')).state.current_mode = Mode.pinyin := by decide
example : (on_press dagNone initState (Key.char 'w')).state.current_mode = Mode.english := by decide

lemma stateInv_init : StateInv initState := by
  refine ⟨rfl, ?_, ?_⟩ <;> intro h <;> simp [initState] at h

lemma stateInv_step (dagFn : DagFn) (s : IMState) (e : Event) (h : StateInv s) :
    StateInv (step dagFn s e) := by
  obtain ⟨h1, h2, h3⟩ := h
  cases e with
  | release k =>
      cases k <;> exact ⟨h1, h2, h3⟩
  | press k =>
      cases k with
      | ctrl => exact ⟨h1, h2, h3⟩
      | esc => exact ⟨h1, h2, h3⟩
      | shift =>
          show StateInv (on_press dagFn s Key.shift).state
          rw [on_press]
          by_cases hc : s.ctrl_pressed = false
          · rw [if_pos hc]
            exact ⟨h1, h2, h3⟩
          · rw [if_neg hc]
            refine ⟨rfl, fun hx => absurd rfl hx, fun hx => absurd rfl hx⟩
      | backspace =>
          show StateInv (on_press dagFn s Key.backspace).state
          rw [on_press]
          by_cases hg : s.current_mode = Mode.pinyin ∧ s.input_buffer ≠ []
          · rw [if_pos hg]
            by_cases hne : s.input_buffer.dropLast ≠ []
            · rw [if_pos hne]
              by_cases hp : is_pinyin_sequence_prefix s.input_buffer.dropLast = true
              · rw [if_pos hp]
                refine ⟨by rw [h1], fun _ => ⟨rfl, hne⟩, fun _ => ?_⟩
                show Mode.pinyin =
                  if is_pinyin_sequence_prefix s.input_buffer.dropLast = true then Mode.pinyin
                  else Mode.english
                rw [if_pos hp]
              · rw [if_neg hp]
                refine ⟨by rw [h1], fun hx => absurd rfl hx, fun _ => ?_⟩
                show Mode.english =
                  if is_pinyin_sequence_prefix s.input_buffer.dropLast = true then Mode.pinyin
                  else Mode.english
                rw [if_neg hp]
            · rw [if_neg hne]
              exact ⟨by rw [h1], fun hx => absurd rfl hx, fun hb2 => absurd hb2 hne⟩
          · rw [if_neg hg]
            exact ⟨h1, h2, h3⟩
      | space =>
          show StateInv (commitBuffer s).state
          rw [commitBuffer]
          by_cases hb : s.input_buffer ≠ []
          · rw [if_pos hb]
            exact ⟨rfl, fun hx => absurd rfl hx, fun hx => absurd rfl hx⟩
          · rw [if_neg hb]
            exact ⟨h1, h2, h3⟩
      | enter =>
          show StateInv (commitBuffer s).state
          rw [commitBuffer]
          by_cases hb : s.input_buffer ≠ []
          · rw [if_pos hb]
            exact ⟨rfl, fun hx => absurd rfl hx, fun hx => absurd rfl hx⟩
          · rw [if_neg hb]
            exact ⟨h1, h2, h3⟩
      | char c =>
          show StateInv (on_press dagFn s (Key.char c)).state
          rw [on_press]
          by_cases hal : pyIsAlpha c = true
          · rw [if_pos hal, letterPress]
            by_cases hp : is_pinyin_sequence_prefix (s.raw_input_buffer ++ [c]) = true
            · rw [if_pos hp]
              refine ⟨rfl, fun _ => ⟨rfl, by simp⟩, fun _ => ?_⟩
              show Mode.pinyin =
                if is_pinyin_sequence_prefix (s.raw_input_buffer ++ [c]) = true then Mode.pinyin
                else Mode.english
              rw [if_pos hp]
            · rw [if_neg hp]
              refine ⟨rfl, fun hx => absurd rfl hx, fun _ => ?_⟩
              show Mode.english =
                if is_pinyin_sequence_prefix (s.raw_input_buffer ++ [c]) = true then Mode.pinyin
                else Mode.english
              rw [if_neg hp]
          · rw [if_neg hal]
            by_cases hd : c ∈ ['1', '2', '3', '4', '5']
            · rw [if_pos hd, digitPress]
              by_cases hg : s.current_mode = Mode.pinyin ∧ s.current_candidates ≠ []
              · rw [if_pos hg]
                by_cases hlt : c.toNat - '0'.toNat - 1 < s.current_candidates.length
                · rw [if_pos hlt]
                  exact ⟨rfl, fun hx => absurd rfl hx, fun hx => absurd rfl hx⟩
                · rw [if_neg hlt]
                  exact ⟨h1, h2, h3⟩
              · rw [if_neg hg]
                exact ⟨h1, h2, h3⟩
            · rw [if_neg hd]
              exact ⟨h1, h2, h3⟩

lemma reachable_inv (dagFn : DagFn) (s : IMState) (h : Reachable dagFn s) : StateInv s := by
  induction h with
  | init => exact stateInv_init
  | step s e _ ih => exact stateInv_step dagFn s e ih

/-- Under an all-Latin-letter text the classifier's verdict is exactly the
membership of the lowered first character in one of the two fixed sets. -/
lemma classify_all_alpha (c : Char) (rest : List Char)
    (h : ∀ x ∈ c :: rest, x.isAlpha = true) :
    ( is_pinyin_sequence_prefix (c :: rest) = true ↔
      (pyToLower c ∈ valid_initials ∨ pyToLower c ∈ valid_finals)) := by
  rw [classify_cons_iff]
  constructor
  · rintro ⟨_, h2⟩
    exact h2
  · intro h2
    refine ⟨?_, h2⟩
    intro x hx
    have hax : pyIsAlpha x = true := by
      rw [pyIsAlpha, h x hx]
      rfl
    exact pyIsAlpha_pyToLower x hax

/-- C3: for every non-empty string of Latin letters, the classifier answers
pinyin exactly when the lower-cased first character lies in the fixed
initial set or final set (english otherwise), and the answer depends only
on the first character, case-insensitively; as a function it is
deterministic by construction. -/
theorem C3_classifier (c : Char) (rest : List Char)
    (h : ∀ x ∈ c :: rest, x.isAlpha = true) :
    ( is_pinyin_sequence_prefix (c :: rest) = true ↔
        (pyToLower c ∈ valid_initials ∨ pyToLower c ∈ valid_finals))
    ∧ (∀ (d : Char) (rest2 : List Char), (∀ x ∈ d :: rest2, x.isAlpha = true) →
        pyToLower c = pyToLower d →
        is_pinyin_sequence_prefix (c :: rest) = is_pinyin_sequence_prefix (d :: rest2)) := by
  constructor
  · exact classify_all_alpha c rest h
  · intro d rest2 h2 hlow
    have e1 := classify_all_alpha c rest h
    have e2 := classify_all_alpha d rest2 h2
    rw [hlow] at e1
    have e3 := e1.trans e2.symm
    by_cases hS : is_pinyin_sequence_prefix (c :: rest) = true
    · rw [hS, e3.mp hS]
    · have hS2 : is_pinyin_sequence_prefix (c :: rest) = false :=
        Bool.not_eq_true _ ▸ (by simpa using hS)
      have hT2 : is_pinyin_sequence_prefix (d :: rest2) = false := by
        by_cases hT : is_pinyin_sequence_prefix (d :: rest2) = true
        · exact absurd (e3.mpr hT) hS
        · simpa using hT
      rw [hS2, hT2]

/-- C3 witness: the two-letter text "ni" is classified, its first letter
'n' is in the initial set, and the parallel text "NA" classifies equally. -/
theorem C3_classifier_witness :
    (∀ x ∈ ('n' :: ['i']), x.isAlpha = true)
    ∧ (( is_pinyin_sequence_prefix ('n' :: ['i']) = true ↔
        (pyToLower 'n' ∈ valid_initials ∨ pyToLower 'n' ∈ valid_finals))
      ∧ (∀ (d : Char) (rest2 : List Char), (∀ x ∈ d :: rest2, x.isAlpha = true) →
          pyToLower 'n' = pyToLower d →
          is_pinyin_sequence_prefix ('n' :: ['i']) = is_pinyin_sequence_prefix (d :: rest2))) :=
  ⟨by decide, C3_classifier 'n' ['i'] (by decide)⟩

/-- C1 counterexample: from the reachable state in which only Ctrl has been
pressed (mode is unknown), pressing Shift force-switches to pinyin but the
emitted UIState has visible = true, not the hide message the claim
demands. -/
theorem C1_cex :
    Reachable dagNone (step dagNone initState (Event.press Key.ctrl))
    ∧ (on_press dagNone (step dagNone initState (Event.press Key.ctrl)) Key.shift).ui =
        some { visible := true, buffer := [], candidates := [] }
    ∧ (on_press dagNone (step dagNone initState (Event.press Key.ctrl)) Key.shift).state.current_mode =
        Mode.pinyin :=
  ⟨Reachable.step initState (Event.press Key.ctrl) Reachable.init, by decide, by decide⟩

/-- C1 amended: when Shift is pressed while Ctrl is held, the mode is
force-switched (pinyin to english, english to pinyin, unknown to pinyin),
both buffers and the candidate list are cleared, and a UIState with empty
buffer and candidates is emitted whose visible flag is set exactly when the
new mode is pinyin — a hide message only when switching to english. -/
theorem C1_force_switch (dagFn : DagFn) (s : IMState) (h : s.ctrl_pressed = true) :
    (on_press dagFn s Key.shift).state.current_mode = forceSwitch s.current_mode
    ∧ (on_press dagFn s Key.shift).state.input_buffer = []
    ∧ (on_press dagFn s Key.shift).state.raw_input_buffer = []
    ∧ (on_press dagFn s Key.shift).state.current_candidates = []
    ∧ (on_press dagFn s Key.shift).ui =
        some { visible := decide (forceSwitch s.current_mode = Mode.pinyin), buffer := [],
               candidates := [] }
    ∧ (on_press dagFn s Key.shift).committed = none := by
  rw [on_press, if_neg (by simp [h])]
  exact ⟨rfl, rfl, rfl, rfl, rfl, rfl⟩

/-- C1 witness: applying the amended theorem in the concrete state where
Ctrl is held and the mode is english yields pinyin with a visible empty
UIState. -/
theorem C1_force_switch_witness :
    ({ initState with ctrl_pressed := true, current_mode := Mode.english } : IMState).ctrl_pressed = true
    ∧ (on_press dagNone { initState with ctrl_pressed := true, current_mode := Mode.english } Key.shift).state.current_mode =
        forceSwitch ({ initState with ctrl_pressed := true, current_mode := Mode.english } : IMState).current_mode :=
  ⟨rfl, (C1_force_switch dagNone { initState with ctrl_pressed := true, current_mode := Mode.english } rfl).1⟩

/-- C2: pressing Space or Enter with a non-empty buffer commits the first
candidate when the mode is pinyin and candidates exist, and the buffer
verbatim otherwise; the state is then reset to unknown/empty and a hidden
UIState is emitted; with an empty buffer nothing changes. -/
theorem C2_commit (dagFn : DagFn) (s : IMState) (k : Key)
    (hk : k = Key.space ∨ k = Key.enter) :
    (s.input_buffer ≠ [] →
      (on_press dagFn s k).committed =
          some (if s.current_mode = Mode.pinyin ∧ s.current_candidates ≠ []
                then s.current_candidates.headD ""
                else String.mk s.input_buffer)
      ∧ (on_press dagFn s k).state.current_mode = Mode.unknown
      ∧ (on_press dagFn s k).state.input_buffer = []
      ∧ (on_press dagFn s k).state.raw_input_buffer = []
      ∧ (on_press dagFn s k).state.current_candidates = []
      ∧ (on_press dagFn s k).ui = some { visible := false, buffer := [], candidates := [] })
    ∧ (s.input_buffer = [] → on_press dagFn s k = { state := s, ui := none, committed := none }) := by
  have hcb : on_press dagFn s k = commitBuffer s := by
    rcases hk with rfl | rfl <;> rfl
  rw [hcb]
  constructor
  · intro hb
    rw [commitBuffer, if_pos hb]
    refine ⟨?_, rfl, rfl, rfl, rfl, rfl⟩
    by_cases hm : s.current_mode = Mode.pinyin
    · cases hcl : s.current_candidates with
      | nil => simp [hm, hcl]
      | cons c0 cs => simp [hm, hcl]
    · simp [hm]
  · intro hb
    rw [commitBuffer, if_neg (by simp [hb])]

/-- C2 witness: in a pinyin state with buffer "ni" and one candidate, Space
commits the candidate. -/
theorem C2_commit_witness :
    (on_press dagNone { current_mode := Mode.pinyin, input_buffer := ['n', 'i'], raw_input_buffer := ['n', 'i'], current_candidates := ["X"], ctrl_pressed := false, shift_pressed := false } Key.space).committed = some "X" := by
  have h := (C2_commit dagNone { current_mode := Mode.pinyin, input_buffer := ['n', 'i'], raw_input_buffer := ['n', 'i'], current_candidates := ["X"], ctrl_pressed := false, shift_pressed := false } Key.space (Or.inl rfl)).1 (by decide)
  rw [h.1]
  decide

/-- C5: a digit key k in '1'..'5' commits candidate k-1 (and resets the
state to unknown/empty with a hidden UIState) exactly when the mode is
pinyin and the candidate list has at least k entries; in every other case
the digit press changes nothing. -/
theorem C5_digit (dagFn : DagFn) (s : IMState) (c : Char)
    (hc : c ∈ ['1', '2', '3', '4', '5']) :
    (s.current_mode = Mode.pinyin ∧ c.toNat - '0'.toNat ≤ s.current_candidates.length →
      (on_press dagFn s (Key.char c)).committed =
          some (s.current_candidates.getD (c.toNat - '0'.toNat - 1) "")
      ∧ (on_press dagFn s (Key.char c)).state.current_mode = Mode.unknown
      ∧ (on_press dagFn s (Key.char c)).state.input_buffer = []
      ∧ (on_press dagFn s (Key.char c)).state.raw_input_buffer = []
      ∧ (on_press dagFn s (Key.char c)).state.current_candidates = []
      ∧ (on_press dagFn s (Key.char c)).ui =
          some { visible := false, buffer := [], candidates := [] })
    ∧ (¬(s.current_mode = Mode.pinyin ∧ c.toNat - '0'.toNat ≤ s.current_candidates.length) →
      on_press dagFn s (Key.char c) = { state := s, ui := none, committed := none }) := by
  have hk1 : 1 ≤ c.toNat - '0'.toNat := by
    fin_cases hc <;> decide
  have hna : pyIsAlpha c = false := by
    fin_cases hc <;> decide
  have hstep : on_press dagFn s (Key.char c) = digitPress s c := by
    rw [on_press, if_neg (by simp [hna]), if_pos hc]
  rw [hstep, digitPress]
  constructor
  · rintro ⟨hm, hle⟩
    have hcnd : s.current_candidates ≠ [] := by
      intro he
      rw [he] at hle
      simp only [List.length_nil] at hle
      omega
    have hlt : c.toNat - '0'.toNat - 1 < s.current_candidates.length := by omega
    rw [if_pos ⟨hm, hcnd⟩, if_pos hlt]
    exact ⟨rfl, rfl, rfl, rfl, rfl, rfl⟩
  · intro hnot
    by_cases hg : s.current_mode = Mode.pinyin ∧ s.current_candidates ≠ []
    · rw [if_pos hg]
      by_cases hlt : c.toNat - '0'.toNat - 1 < s.current_candidates.length
      · exact absurd ⟨hg.1, by omega⟩ hnot
      · rw [if_neg hlt]
    · rw [if_neg hg]

/-- C5 witness: pressing '2' in a pinyin state with three candidates
commits the second one. -/
theorem C5_digit_witness :
    (on_press dagNone { current_mode := Mode.pinyin, input_buffer := ['n', 'i'], raw_input_buffer := ['n', 'i'], current_candidates := ["A", "B", "C"], ctrl_pressed := false, shift_pressed := false } (Key.char '2')).committed = some "B" := by
  have h := ((C5_digit dagNone { current_mode := Mode.pinyin, input_buffer := ['n', 'i'], raw_input_buffer := ['n', 'i'], current_candidates := ["A", "B", "C"], ctrl_pressed := false, shift_pressed := false } '2' (by decide)).1 ⟨rfl, by decide⟩).1
  rw [h]
  decide

/-- The chunks of `simple_seg` concatenate back to the input. -/
lemma chunk_pinyin_join : ∀ l : List Char, (chunk_pinyin l).join = l
  | [] => rfl
  | [c] => rfl
  | c1 :: c2 :: rest => by
      rw [chunk_pinyin]
      simp [chunk_pinyin_join rest]

/-- The chunks of `simple_seg` are the greedy split: length-2 pieces from
the left, a final length-1 piece when the input length is odd. -/
lemma chunk_pinyin_lengths : ∀ l : List Char,
    (chunk_pinyin l).map List.length =
      List.replicate (l.length / 2) 2 ++ (if l.length % 2 = 1 then [1] else [])
  | [] => by simp [chunk_pinyin]
  | [c] => by simp [chunk_pinyin]
  | c1 :: c2 :: rest => by
      rw [chunk_pinyin, List.map_cons, chunk_pinyin_lengths rest]
      simp only [List.length_cons]
      have h2 : (rest.length + 1 + 1) / 2 = rest.length / 2 + 1 := by omega
      have h3 : (rest.length + 1 + 1) % 2 = rest.length % 2 := by omega
      simp only [h2, h3, List.replicate_succ, List.cons_append]
      rfl

/-- C6: the candidate lookup splits its input into 2-character chunks
greedily from the left with a final 1-character chunk when the length is
odd (so the chunks join back to the input and have the stated length
profile, and "nihao" chunks to ["ni","ha","o"]), feeds the chunk list to
the dag path search, joins each returned path into one string, and returns
at most top_k candidates. -/
theorem C6_lookup (dagFn : DagFn) (pinyin_str : List Char) (top_k : Nat)
    (h : pinyin_str ≠ []) :
    (chunk_pinyin pinyin_str).join = pinyin_str
    ∧ ((chunk_pinyin pinyin_str).map List.length =
        List.replicate (pinyin_str.length / 2) 2 ++
          (if pinyin_str.length % 2 = 1 then [1] else []))
    ∧ chunk_pinyin ['n', 'i', 'h', 'a', 'o'] = [['n', 'i'], ['h', 'a'], ['o']]
    ∧ (∀ result, dagFn (chunk_pinyin pinyin_str) top_k = some result →
        simple_seg dagFn pinyin_str top_k = (result.map String.join).take top_k)
    ∧ (simple_seg dagFn pinyin_str top_k).length ≤ top_k := by
  refine ⟨chunk_pinyin_join pinyin_str, chunk_pinyin_lengths pinyin_str, by decide, ?_, ?_⟩
  · intro result hres
    rw [simple_seg, if_neg h, hres]
  · rw [simple_seg]
    by_cases he : pinyin_str = []
    · rw [if_pos he]
      simp
    · rw [if_neg he]
      cases hres : dagFn (chunk_pinyin pinyin_str) top_k with
      | none => simp
      | some result =>
          simp only [List.length_take]
          exact min_le_left _ _

/-- C6 witness: the lookup over the concrete input "nihao" with a dag
returning two paths obeys the pipeline. -/
theorem C6_lookup_witness :
    (['n', 'i', 'h', 'a', 'o'] ≠ ([] : List Char))
    ∧ (chunk_pinyin ['n', 'i', 'h', 'a', 'o']).join = ['n', 'i', 'h', 'a', 'o'] :=
  ⟨by decide, (C6_lookup dagTwo ['n', 'i', 'h', 'a', 'o'] 5 (by decide)).1⟩

/-- C7: an internal failure of the dag collaborator (a raised exception,
modelled as `none`) makes the lookup return the empty list instead of
propagating an error, and a run of the state machine against the failing
collaborator is indistinguishable from one against a collaborator that
succeeds with no candidates. -/
theorem C7_failure (dagFn : DagFn) :
    (∀ (pinyin : List Char) (top_k : Nat),
        dagFn (chunk_pinyin pinyin) top_k = none →
        get_top_candidates dagFn pinyin top_k = [])
    ∧ (∀ (s : IMState) (k : Key), on_press dagNone s k = on_press dagEmpty s k) := by
  constructor
  · intro pinyin top_k hfail
    rw [get_top_candidates, simple_seg]
    by_cases he : pinyin = []
    · rw [if_pos he]
    · rw [if_neg he, hfail]
  · have hget : ∀ (l : List Char) (n : Nat),
        get_top_candidates dagNone l n = get_top_candidates dagEmpty l n := by
      intro l n
      rw [get_top_candidates, get_top_candidates, simple_seg, simple_seg]
      by_cases he : l = []
      · rw [if_pos he, if_pos he]
      · rw [if_neg he, if_neg he]
        show ([] : List String) = List.take n (List.map String.join [])
        rw [List.map_nil, List.take_nil]
    intro s k
    cases k with
    | ctrl => rfl
    | shift => rfl
    | backspace => simp only [on_press, hget]
    | esc => rfl
    | space => rfl
    | enter => rfl
    | char c => simp only [on_press, letterPress, hget]

/-- C7 witness: the always-failing collaborator yields no candidates for
"ni". -/
theorem C7_failure_witness : get_top_candidates dagNone ['n', 'i'] 5 = [] :=
  (C7_failure dagNone).1 ['n', 'i'] 5 rfl

/-- C4 counterexample: the state reached by typing 'w' (english mode,
buffer "w") is reachable; appending 'a' and pressing Backspace leaves the
buffer at "wa", because Backspace only acts in pinyin mode, so the
append/backspace round trip does not restore the buffer. -/
theorem C4_cex :
    Reachable dagNone (step dagNone initState (Event.press (Key.char 'w')))
    ∧ (on_press dagNone
        (on_press dagNone (step dagNone initState (Event.press (Key.char 'w')))
          (Key.char 'a')).state Key.backspace).state.input_buffer ≠
        (step dagNone initState (Event.press (Key.char 'w'))).input_buffer :=
  ⟨Reachable.step initState (Event.press (Key.char 'w')) Reachable.init, by decide⟩

/-- C4 amended: in every reachable state whose mode is pinyin and whose
buffer is non-empty, appending a Latin letter by a key press and then
pressing Backspace restores the mode and both buffers to their pre-append
values; in other reachable states (english mode or empty buffer) the round
trip need not restore the state, because Backspace only acts in pinyin
mode. -/
theorem C4_append_backspace (dagFn : DagFn) (s : IMState) (c : Char)
    (hr : Reachable dagFn s) (hm : s.current_mode = Mode.pinyin)
    (hb : s.input_buffer ≠ []) (hc : c.isAlpha = true) :
    (on_press dagFn (on_press dagFn s (Key.char c)).state Key.backspace).state.current_mode =
        s.current_mode
    ∧ (on_press dagFn (on_press dagFn s (Key.char c)).state Key.backspace).state.input_buffer =
        s.input_buffer
    ∧ (on_press dagFn (on_press dagFn s (Key.char c)).state Key.backspace).state.raw_input_buffer =
        s.raw_input_buffer := by
  obtain ⟨h1, h2, h3⟩ := reachable_inv dagFn s hr
  have hcl : is_pinyin_sequence_prefix s.input_buffer = true := by
    by_cases hp : is_pinyin_sequence_prefix s.input_buffer = true
    · exact hp
    · rw [h3 hb, if_neg hp] at hm
      cases hm
  have hpya : pyIsAlpha c = true := by
    rw [pyIsAlpha, hc]
    rfl
  have happ : is_pinyin_sequence_prefix (s.raw_input_buffer ++ [c]) = true := by
    rw [← h1]
    exact classify_append _ _ hcl (pyIsAlpha_pyToLower c hpya)
  have hs1 : (on_press dagFn s (Key.char c)).state = { s with current_mode := Mode.pinyin, input_buffer := s.raw_input_buffer ++ [c], raw_input_buffer := s.raw_input_buffer ++ [c], current_candidates := get_top_candidates dagFn (s.raw_input_buffer ++ [c]) 5 } := by
    rw [on_press, if_pos hpya, letterPress, if_pos happ]
  have hrb : s.raw_input_buffer ≠ [] := by
    rw [← h1]
    exact hb
  have hclr : is_pinyin_sequence_prefix s.raw_input_buffer = true := by
    rw [← h1]
    exact hcl
  rw [hs1, on_press]
  split
  next hg =>
    simp only [List.dropLast_concat]
    rw [if_pos hrb, if_pos hclr]
    exact ⟨hm.symm, by rw [h1], rfl⟩
  next hg => exact absurd ⟨rfl, by simp⟩ hg

/-- C4 witness: from the reachable pinyin state with buffer "n", appending
'i' then backspacing restores the buffer "n". -/
theorem C4_append_backspace_witness :
    (on_press dagNone
        (on_press dagNone (step dagNone initState (Event.press (Key.char 'n')))
          (Key.char 'i')).state Key.backspace).state.input_buffer =
      (step dagNone initState (Event.press (Key.char 'n'))).input_buffer :=
  (C4_append_backspace dagNone (step dagNone initState (Event.press (Key.char 'n'))) 'i'
    (Reachable.step initState (Event.press (Key.char 'n')) Reachable.init)
    (by decide) (by decide) (by decide)).2.1

/-- C8: in every reachable state, a non-empty candidate list implies the
mode is pinyin and the buffer is non-empty. -/
theorem C8_candidates_inv (dagFn : DagFn) (s : IMState) (h : Reachable dagFn s)
    (hc : s.current_candidates ≠ []) :
    s.current_mode = Mode.pinyin ∧ s.input_buffer ≠ [] :=
  (reachable_inv dagFn s h).2.1 hc

/-- C8 witness: after typing 'n' against a successful dag the candidate
list is non-empty and the invariant's conclusion holds. -/
theorem C8_candidates_inv_witness :
    (step dagTwo initState (Event.press (Key.char 'n'))).current_mode = Mode.pinyin
    ∧ (step dagTwo initState (Event.press (Key.char 'n'))).input_buffer ≠ [] :=
  C8_candidates_inv dagTwo (step dagTwo initState (Event.press (Key.char 'n')))
    (Reachable.step initState (Event.press (Key.char 'n')) Reachable.init) (by decide)

/-- C9: in every reachable state the two buffers `input_buffer` and
`raw_input_buffer` are equal. -/
theorem C9_buffers_eq (dagFn : DagFn) (s : IMState) (h : Reachable dagFn s) :
    s.input_buffer = s.raw_input_buffer :=
  (reachable_inv dagFn s h).1

/-- C9 witness: the buffers agree in the concrete state reached by typing
'n' then 'i'. -/
theorem C9_buffers_eq_witness :
    (step dagNone (step dagNone initState (Event.press (Key.char 'n')))
        (Event.press (Key.char 'i'))).input_buffer =
      (step dagNone (step dagNone initState (Event.press (Key.char 'n')))
        (Event.press (Key.char 'i'))).raw_input_buffer :=
  C9_buffers_eq dagNone _
    (Reachable.step _ (Event.press (Key.char 'i'))
      (Reachable.step initState (Event.press (Key.char 'n')) Reachable.init))

/-- C10: from every reachable state in pinyin mode with a non-empty
buffer, Backspace never yields english mode: the result is pinyin when the
shortened buffer is non-empty and unknown when it is empty. -/
theorem C10_backspace_not_english (dagFn : DagFn) (s : IMState) (h : Reachable dagFn s)
    (hm : s.current_mode = Mode.pinyin) (hb : s.input_buffer ≠ []) :
    (on_press dagFn s Key.backspace).state.current_mode ≠ Mode.english
    ∧ (on_press dagFn s Key.backspace).state.current_mode =
        (if s.input_buffer.dropLast = [] then Mode.unknown else Mode.pinyin) := by
  obtain ⟨h1, h2, h3⟩ := reachable_inv dagFn s h
  have hcl : is_pinyin_sequence_prefix s.input_buffer = true := by
    by_cases hp : is_pinyin_sequence_prefix s.input_buffer = true
    · exact hp
    · rw [h3 hb, if_neg hp] at hm
      cases hm
  rw [on_press, if_pos ⟨hm, hb⟩]
  by_cases hne : s.input_buffer.dropLast ≠ []
  · rw [if_pos hne, if_pos (classify_dropLast _ hcl hne), if_neg hne]
    exact ⟨fun he => Mode.noConfusion he, rfl⟩
  · rw [if_neg hne, if_pos (not_not.mp hne)]
    exact ⟨fun he => Mode.noConfusion he, rfl⟩

/-- C10 witness: backspacing from the reachable pinyin state with buffer
"ni" yields pinyin mode. -/
theorem C10_backspace_not_english_witness :
    (on_press dagNone
        (step dagNone (step dagNone initState (Event.press (Key.char 'n')))
          (Event.press (Key.char 'i'))) Key.backspace).state.current_mode = Mode.pinyin := by
  have h := (C10_backspace_not_english dagNone
    (step dagNone (step dagNone initState (Event.press (Key.char 'n')))
      (Event.press (Key.char 'i')))
    (Reachable.step _ (Event.press (Key.char 'i'))
      (Reachable.step initState (Event.press (Key.char 'n')) Reachable.init))
    (by decide) (by decide)).2
  rw [h]
  decide
